import Mathlib

/-!
Verification of the meowzon-ocr-extractor extraction pipeline.

The Python source is shallowly embedded: strings are Lean `String`s
(processed as `List Char`), Python floats are modelled as exact rationals
(`ℚ`), Python dicts as association lists, and the regex operations of the
source are implemented as deterministic scanners following the behaviour
of the concrete patterns of the source (each of those patterns is
effectively deterministic; see the comments at the individual scanners).
Scanning loops recurse on a fuel argument initialised with the input
length; every step consumes at least one character, so the fuel never runs
out on the initial call.
-/

/-- Python `str.strip()` whitespace set: space, tab, newline, vertical tab,
form feed, carriage return. -/
def isPySpace (c : Char) : Bool :=
  c = ' ' || c = '\t' || c = '\n' || c = '\x0b' || c = '\x0c' || c = '\r'

/-- Python `str.strip()` on a character list. -/
def pyStripL (cs : List Char) : List Char :=
  ((cs.dropWhile isPySpace).reverse.dropWhile isPySpace).reverse

/-- Python `str.strip()` on a string. -/
def pyStrip (s : String) : String :=
  String.mk (pyStripL s.data)

/-- Python `str.lower()` (ASCII; all characters the patterns care about are
ASCII). -/
def pyLower (cs : List Char) : List Char :=
  cs.map Char.toLower

/-- Model of `needle in hay` substring test on character lists. -/
def containsSub (hay needle : List Char) : Bool :=
  match hay with
  | [] => needle.isEmpty
  | _ :: t => needle.isPrefixOf hay || containsSub t needle

/-- Python `str.split(sep)` for a one-character separator. -/
def splitOnChar (sep : Char) : List Char → List (List Char)
  | [] => [[]]
  | x :: xs =>
    let r := splitOnChar sep xs
    if x = sep then [] :: r
    else (x :: r.headD []) :: r.tail

/-- Model of `text.split('\n')` followed by per-line `strip()` and dropping empty
lines, as in `DataExtractor.extract_items` (`data_extractor.py:80`). -/
def linesOf (text : String) : List (List Char) :=
  ((splitOnChar '\n' text.data).map pyStripL).filter (fun l => !l.isEmpty)

/-- The `seen`-set dedup loop of `extract_items`
(`data_extractor.py:104-110`): keep first occurrences, dropping later
duplicates.  Also used to model Python `list(set(...))` where the source
deduplicates; `set` iteration order is implementation-defined in Python
and the model fixes first-occurrence order (no claim depends on that
order). -/
def dedupFirstAux [DecidableEq α] (seen : List α) : List α → List α
  | [] => []
  | x :: xs =>
    if x ∈ seen then dedupFirstAux seen xs
    else x :: dedupFirstAux (x :: seen) xs

/-- Deduplication preserving first-seen order. -/
def dedupFirst [DecidableEq α] (l : List α) : List α :=
  dedupFirstAux [] l

/-- Consume exactly `n` characters satisfying `p` (a `\d{n}`-style regex
piece), returning the consumed characters and the rest. -/
def matchCount (p : Char → Bool) : Nat → List Char → Option (List Char × List Char)
  | 0, cs => some ([], cs)
  | _ + 1, [] => none
  | n + 1, c :: cs =>
    if p c then
      (matchCount p n cs).map (fun gr => (c :: gr.1, gr.2))
    else none

/-- Consume one expected character. -/
def matchChar (x : Char) : List Char → Option (List Char)
  | [] => none
  | c :: cs => if c = x then some cs else none

/-- Consume a literal word, comparing characters with `eq`. -/
def matchWord (eq : Char → Char → Bool) : List Char → List Char → Option (List Char)
  | [], cs => some cs
  | _ :: _, [] => none
  | w :: ws, c :: cs => if eq c w then matchWord eq ws cs else none

/-- Case-insensitive character comparison (`re.IGNORECASE`). -/
def ciEq (a b : Char) : Bool :=
  a.toLower = b.toLower

/-- Case-sensitive character comparison. -/
def csEq (a b : Char) : Bool :=
  a = b

/-- Generic model of `re.findall`: scan left to right, emitting the capture
of each non-overlapping match and continuing after the match, advancing one
character where no match starts.  Every matcher used consumes at least one
character, so `fuel = input length` (see `scanAll`) never runs out. -/
def scanLoop (m : List Char → Option (List Char × List Char)) :
    Nat → List Char → List String
  | 0, _ => []
  | _, [] => []
  | fuel + 1, c :: cs =>
    match m (c :: cs) with
    | some (got, rest) => String.mk got :: scanLoop m fuel rest
    | none => scanLoop m fuel cs

/-- Model of `re.findall(pattern, text)` for a matcher `m` returning
`(capture, rest)`. -/
def scanAll (m : List Char → Option (List Char × List Char))
    (cs : List Char) : List String :=
  scanLoop m cs.length cs

/-! ### data_extractor.py — pattern scanners -/

/-- Match `ORDER_ID_PATTERN = \d{3}-\d{7}-\d{7}` (`data_extractor.py:14`) at
the head of the input.  All counts are fixed, so regex matching is a plain
window test. -/
def matchOrderId (cs : List Char) : Option (List Char × List Char) := do
  let (a, r1) ← matchCount Char.isDigit 3 cs
  let r2 ← matchChar '-' r1
  let (b, r3) ← matchCount Char.isDigit 7 r2
  let r4 ← matchChar '-' r3
  let (c, r5) ← matchCount Char.isDigit 7 r4
  some (a ++ '-' :: b ++ '-' :: c, r5)

/-- The `(?:,\d{3})*` piece of `PRICE_PATTERN` (`data_extractor.py:15`):
greedily consume comma-plus-three-digit groups.  Fuel-bounded (each
iteration consumes four characters). -/
def priceGroups : Nat → List Char → List Char × List Char
  | 0, cs => ([], cs)
  | fuel + 1, cs =>
    match matchChar ',' cs with
    | none => ([], cs)
    | some r1 =>
      match matchCount Char.isDigit 3 r1 with
      | none => ([], cs)
      | some (g, r2) =>
        let (more, rest) := priceGroups fuel r2
        (',' :: g ++ more, rest)

/-- The `(?:\.\d{2})?` cents piece of `PRICE_PATTERN`. -/
def priceCents (cs : List Char) : List Char × List Char :=
  match cs with
  | '.' :: a :: b :: rest =>
    if a.isDigit && b.isDigit then (['.', a, b], rest) else ([], cs)
  | _ => ([], cs)

/-- Match `PRICE_PATTERN = \$\d{1,3}(?:,\d{3})*(?:\.\d{2})?`
(`data_extractor.py:15`) at the head of the input.  `\d{1,3}` takes at most
three characters of the leading digit run; the following pieces start with
`,` and `.` respectively, so no backtracking can occur. -/
def matchPrice (cs : List Char) : Option (List Char × List Char) :=
  match cs with
  | '$' :: cs' =>
    let run := cs'.takeWhile Char.isDigit
    if run.isEmpty then none
    else
      let d := min 3 run.length
      let lead := cs'.take d
      let r1 := cs'.drop d
      let (grp, r2) := priceGroups r1.length r1
      let (cents, r3) := priceCents r2
      some ('$' :: lead ++ grp ++ cents, r3)
  | _ => none

/-- The twelve month prefixes of `DATE_PATTERN` (`data_extractor.py:16`),
with their month numbers. -/
def monthAbbrevs : List (List Char × Nat) :=
  [("Jan".data, 1), ("Feb".data, 2), ("Mar".data, 3), ("Apr".data, 4),
   ("May".data, 5), ("Jun".data, 6), ("Jul".data, 7), ("Aug".data, 8),
   ("Sep".data, 9), ("Oct".data, 10), ("Nov".data, 11), ("Dec".data, 12)]

/-- Try a list of alternative literal words at the head of the input, in
pattern order, returning the consumed characters and the rest. -/
def matchAlts (eq : Char → Char → Bool) :
    List (List Char) → List Char → Option (List Char × List Char)
  | [], _ => none
  | w :: ws, cs =>
    match matchWord eq w cs with
    | some rest => some (cs.take w.length, rest)
    | none => matchAlts eq ws cs

/-- Model of `\s` of Python `re` (no `re.UNICODE` subtleties arise for the inputs at
hand): space, tab, newline, carriage return, form feed, vertical tab. -/
def isReSpace (c : Char) : Bool := isPySpace c

/-- Match
`DATE_PATTERN = (?:Jan|...|Dec)[a-z]*\.?\s+\d{1,2},?\s+\d{4}` with
`re.IGNORECASE` (`data_extractor.py:16,36`) at the head of the input.
The character classes of consecutive pieces are disjoint, hence the greedy
pieces never backtrack; `\d{1,2}` can only be followed by `,?\s+`, so a
leading digit run longer than two characters fails the whole match. -/
def matchDate (cs : List Char) : Option (List Char × List Char) := do
  let (m, r1) ← matchAlts ciEq (monthAbbrevs.map Prod.fst) cs
  let letters := r1.takeWhile Char.isAlpha    -- `[a-z]*` under IGNORECASE
  let r2 := r1.drop letters.length
  let (dot, r3) :=
    match r2 with
    | '.' :: t => (['.'], t)
    | _ => (([] : List Char), r2)
  let ws1 := r3.takeWhile isReSpace
  if ws1.isEmpty then none
  else
    let r4 := r3.drop ws1.length
    let day := r4.takeWhile Char.isDigit
    if day.isEmpty || day.length > 2 then none
    else
      let r5 := r4.drop day.length
      let (comma, r6) :=
        match r5 with
        | ',' :: t => ([','], t)
        | _ => (([] : List Char), r5)
      let ws2 := r6.takeWhile isReSpace
      if ws2.isEmpty then none
      else
        let r7 := r6.drop ws2.length
        match matchCount Char.isDigit 4 r7 with
        | none => none
        | some (y, r8) =>
          some (m ++ letters ++ dot ++ ws1 ++ day ++ comma ++ ws2 ++ y, r8)

/-- Day count of a month, as `datetime` validates it
(`datetime.strptime`, `data_extractor.py:42`). -/
def daysInMonth (month year : Nat) : Nat :=
  if month = 2 then
    if year % 4 = 0 && (year % 100 ≠ 0 || year % 400 = 0) then 29 else 28
  else if month = 4 || month = 6 || month = 9 || month = 11 then 30
  else 31

/-- Decimal rendering left-padded with zeros to `w` digits
(`strftime` `%Y`/`%m`/`%d`). -/
def padNum (w n : Nat) : String :=
  let s := toString n
  String.mk (List.replicate (w - s.length) '0') ++ s

/-- Model of `datetime.strptime(s, '%b %d %Y')` followed by `strftime('%Y-%m-%d')`
(`data_extractor.py:42-43`): the whole string must be an abbreviated month
name (case-insensitive), whitespace, a 1–2 digit day, whitespace and a
4-digit year; the day is validated against the month length and the year
must be positive, otherwise the original string is kept
(`data_extractor.py:44-45`). -/
def strptimeBdY (s : String) : Option String := do
  let cs := s.data
  let (m, r1) ← matchAlts ciEq (monthAbbrevs.map Prod.fst) cs
  let month ← (monthAbbrevs.find? (fun p => p.1.map Char.toLower = m.map Char.toLower)).map Prod.snd
  let ws1 := r1.takeWhile isReSpace
  if ws1.isEmpty then none
  else
    let r2 := r1.drop ws1.length
    let day := r2.takeWhile Char.isDigit
    if day.isEmpty || 2 < day.length then none
    else
      let dayN := (String.mk day).toNat!
      if dayN = 0 then none
      else
        let r3 := r2.drop day.length
        let ws2 := r3.takeWhile isReSpace
        if ws2.isEmpty then none
        else
          let r4 := r3.drop ws2.length
          match matchCount Char.isDigit 4 r4 with
          | none => none
          | some (y, r5) =>
            if !r5.isEmpty then none
            else
              let yearN := (String.mk y).toNat!
              if yearN = 0 then none
              else if daysInMonth month yearN < dayN then none
              else some (padNum 4 yearN ++ "-" ++ padNum 2 month ++ "-" ++ padNum 2 dayN)

/-- The per-match normalisation of `extract_dates`
(`data_extractor.py:39-45`): reformat to `YYYY-MM-DD` when
`strptime('%b %d %Y')` (after comma removal) parses, else keep the match
unchanged. -/
def normalizeDate (s : String) : String :=
  match strptimeBdY (String.mk (s.data.filter (fun c => c ≠ ','))) with
  | some out => out
  | none => s

/-- Match `TOTAL_PATTERN =
(?:Order Total|Grand Total|Total|Subtotal)[\s:]*(\$...)` with
`re.IGNORECASE` (`data_extractor.py:17,51`); the capture is the price
group.  The four label alternatives start with pairwise distinct letters,
and the separator class excludes `$`, so matching is deterministic. -/
def matchTotal (cs : List Char) : Option (List Char × List Char) := do
  let (_, r1) ← matchAlts ciEq
    ["Order Total".data, "Grand Total".data, "Total".data, "Subtotal".data] cs
  let r2 := r1.dropWhile (fun c => isReSpace c || c = ':')
  let (price, r3) ← matchPrice r2
  some (price, r3)

/-- Match `QUANTITY_PATTERN = (?:Qty|Quantity)[\.:]?\s*(\d+)` with
`re.IGNORECASE` (`data_extractor.py:18,57`); the capture is the digit
group.  At no position can both label alternatives match, and the optional
separator and whitespace classes exclude digits, so matching is
deterministic. -/
def matchQuantity (cs : List Char) : Option (List Char × List Char) :=
  let tail_ (r1 : List Char) : Option (List Char × List Char) :=
    let r2 :=
      match r1 with
      | c :: t => if c = '.' || c = ':' then t else r1
      | [] => r1
    let r3 := r2.dropWhile isReSpace
    let ds := r3.takeWhile Char.isDigit
    if ds.isEmpty then none else some (ds, r3.drop ds.length)
  match matchWord ciEq "Qty".data cs with
  | some r1 => tail_ r1
  | none =>
    match matchWord ciEq "Quantity".data cs with
    | some r1 => tail_ r1
    | none => none

/-- Match `SELLER_PATTERN = Sold by[:\s]*(.+?)(?:\n|$)` (case-sensitive,
`data_extractor.py:19,63`); the capture is the lazy group.  The greedy
separator run is followed by the shortest non-empty run of non-newline
characters ending at a newline or the end of the string; when that run is
empty CPython backtracks the separator run, which makes the capture the
last non-newline separator character (such captures are later discarded by
the `len > 2` filter of `extract_sellers`). -/
def matchSeller (cs : List Char) : Option (List Char × List Char) := do
  let r1 ← matchWord csEq "Sold by".data cs
  let seps := r1.takeWhile (fun c => c = ':' || isReSpace c)
  let body := r1.drop seps.length
  let cap := body.takeWhile (fun c => c ≠ '\n')
  if cap.isEmpty then
    match (seps.filter (fun c => c ≠ '\n')).getLast? with
    | none => none
    | some c =>
      -- the giveback match ends right after the newline that follows `c`
      some ([c], body)
  else
    let after := body.drop cap.length
    some (cap, match after with
               | '\n' :: t => t
               | _ => after)

/-- Match `TRACKING_PATTERN = (?:Tracking|Track)[:\s]*([A-Z0-9]{10,})` with
`re.IGNORECASE` (`data_extractor.py:20,71`); the capture is the
alphanumeric group.  When the `Tracking` alternative matches but no
10-character alphanumeric run follows, CPython backtracks and retries with
the `Track` alternative, which the second branch reproduces. -/
def matchTracking (cs : List Char) : Option (List Char × List Char) :=
  let tail_ (r1 : List Char) : Option (List Char × List Char) :=
    let r2 := r1.dropWhile (fun c => isReSpace c || c = ':')
    let tok := r2.takeWhile (fun c => c.isAlpha || c.isDigit)
    if tok.length < 10 then none else some (tok, r2.drop tok.length)
  match matchWord ciEq "Tracking".data cs with
  | some r1 =>
    match tail_ r1 with
    | some out => some out
    | none =>
      (matchWord ciEq "Track".data cs).bind tail_
  | none =>
    (matchWord ciEq "Track".data cs).bind tail_

/-! ### data_extractor.py — extraction functions -/

/-- Model of `extract_order_ids` (`data_extractor.py:22-26`): `re.findall` of the
order-id pattern, deduplicated via `list(set(...))`. -/
def extract_order_ids (text : String) : List String :=
  dedupFirst (scanAll matchOrderId text.data)

/-- Model of `extract_prices` (`data_extractor.py:28-31`): `re.findall` of the price
pattern, kept in text order with duplicates. -/
def extract_prices (text : String) : List String :=
  scanAll matchPrice text.data

/-- Model of `extract_dates` (`data_extractor.py:33-46`): `re.findall` of the date
pattern (case-insensitive), each match normalised via
`strptime('%b %d %Y')` when it parses. -/
def extract_dates (text : String) : List String :=
  (scanAll matchDate text.data).map normalizeDate

/-- Model of `extract_totals` (`data_extractor.py:48-52`): `re.findall` of the
labelled-total pattern, collecting the captured price group. -/
def extract_totals (text : String) : List String :=
  scanAll matchTotal text.data

/-- Model of `extract_quantities` (`data_extractor.py:54-58`). -/
def extract_quantities (text : String) : List String :=
  scanAll matchQuantity text.data

/-- Model of `extract_sellers` (`data_extractor.py:60-66`): `re.findall` of the
`Sold by` pattern, stripped, entries of length under three discarded, then
`list(set(...))`. -/
def extract_sellers (text : String) : List String :=
  dedupFirst (((scanAll matchSeller text.data).map pyStrip).filter
    (fun s => 2 < s.length))

/-- Model of `extract_tracking_numbers` (`data_extractor.py:68-72`). -/
def extract_tracking_numbers (text : String) : List String :=
  dedupFirst (scanAll matchTracking text.data)

/-- The `\$[\d,]+\.?\d*` alternative of the cleaning substitution of
`extract_items` (`data_extractor.py:85`): `$`, then a maximal non-empty run
of digits and commas, an optional dot and a maximal digit run.  Returns the
rest after the match.  The classes of consecutive pieces are disjoint, so
the greedy pieces never backtrack. -/
def subPriceAt (cs : List Char) : Option (List Char) :=
  match cs with
  | '$' :: cs' =>
    let run := cs'.takeWhile (fun c => c.isDigit || c = ',')
    if run.isEmpty then none
    else
      let r1 := cs'.drop run.length
      match r1 with
      | '.' :: r2 => some (r2.dropWhile Char.isDigit)
      | _ => some r1
  | _ => none

/-- The `\d{3}-\d{7}.*` alternative of the cleaning substitution of
`extract_items` (`data_extractor.py:85`): three digits, a dash and seven
digits; the trailing `.*` then consumes the rest of the line (item lines
contain no newline). -/
def subOrderIdAt (cs : List Char) : Bool :=
  (Option.isSome <| do
    let (_, r1) ← matchCount Char.isDigit 3 cs
    let r2 ← matchChar '-' r1
    let (_, _) ← matchCount Char.isDigit 7 r2
    some ())

/-- Model of `re.sub(r'\$[\d,]+\.?\d*|\d{3}-\d{7}.*', '', line)`
(`data_extractor.py:85`): left-to-right scan deleting matches of either
alternative (the first alternative is tried first at each position, as in
CPython).  Fuel-bounded; both alternatives consume at least one character. -/
def pySubLoop : Nat → List Char → List Char
  | 0, _ => []
  | _, [] => []
  | fuel + 1, c :: cs =>
    match subPriceAt (c :: cs) with
    | some rest => pySubLoop fuel rest
    | none =>
      if subOrderIdAt (c :: cs) then []
      else c :: pySubLoop fuel cs

/-- The cleaned form of one item line:
`re.sub(r'\$[\d,]+\.?\d*|\d{3}-\d{7}.*', '', line).strip()`
(`data_extractor.py:85`). -/
def cleanLine (line : List Char) : List Char :=
  pyStripL (pySubLoop line.length line)

/-- The stop-keyword list of `extract_items` (`data_extractor.py:91-95`). -/
def skipKeywords : List (List Char) :=
  ["total".data, "shipping".data, "tax".data, "qty".data, "quantity".data,
   "sold by".data, "order".data, "delivery".data, "arrives".data,
   "return".data, "refund".data, "customer".data, "account".data,
   "payment".data, "credit".data, "gift".data]

/-- The keep condition of the `extract_items` loop on a cleaned line
(`data_extractor.py:88-102`): at least 15 characters, no stop keyword in
its lowercase form, non-empty with an uppercase first character. -/
def keepItemLine (clean : List Char) : Bool :=
  15 ≤ clean.length &&
  !(skipKeywords.any (fun kw => containsSub (pyLower clean) kw)) &&
  (match clean with
   | [] => false
   | c :: _ => c.isUpper)

/-- The collection loop of `extract_items` (`data_extractor.py:82-102`):
clean each line and keep the cleaned line when it passes the checks. -/
def collectItems : List (List Char) → List String
  | [] => []
  | l :: ls =>
    let clean := cleanLine l
    if keepItemLine clean then String.mk clean :: collectItems ls
    else collectItems ls

/-- Model of `extract_items` (`data_extractor.py:74-112`). -/
def extract_items (text : String) : List String :=
  dedupFirst (collectItems (linesOf text))

/-- The eight-key result dictionary of `extract_all`
(`data_extractor.py:114-131`), as an association list in the insertion
order of the source. -/
def extract_all (text : String) : List (String × List String) :=
  [("order_ids", extract_order_ids text),
   ("prices", extract_prices text),
   ("dates", extract_dates text),
   ("totals", extract_totals text),
   ("quantities", extract_quantities text),
   ("sellers", extract_sellers text),
   ("tracking_numbers", extract_tracking_numbers text),
   ("items", extract_items text)]

/-! ### data_extractor.py — DataValidator -/

/-- Dictionary access `d.get(key)` with default `[]`, as the truthiness
checks of `calculate_confidence` and `_should_use_ai` use it. -/
def fget (d : List (String × List String)) (k : String) : List String :=
  match d with
  | [] => []
  | (k', v) :: rest => if k' = k then v else fget rest k

/-- Model of `validate_order_id` (`data_extractor.py:137-142`):
`re.match(r'^\d{3}-\d{7}-\d{7}$', order_id)`.  `re.match` anchors at the
start, and `$` accepts the end of the string or a position just before a
single trailing newline. -/
def validate_order_id (order_id : String) : Bool :=
  match matchOrderId order_id.data with
  | some (_, rest) => rest = [] || rest = ['\n']
  | none => false

/-- Model of `calculate_confidence` (`data_extractor.py:167-198`), with the float
arithmetic over exact rationals (`0.4` as `2/5`). -/
def calculate_confidence (extracted : List (String × List String))
    (ocr_confidence : ℚ) : ℚ :=
  let score := ocr_confidence * (2 / 5)
  let oids := fget extracted "order_ids"
  let score := if !oids.isEmpty && validate_order_id (oids.headD "")
    then score + 25 else score
  let items := fget extracted "items"
  let score := if !items.isEmpty
    then score + ((min (items.length * 5) 20 : ℕ) : ℚ) else score
  let score := if !(fget extracted "totals").isEmpty then score + 10 else score
  let score := if !(fget extracted "dates").isEmpty then score + 5 else score
  min score 100

/-! ### image_processor.py -/

/-- A named crop strategy: four fractional margins
(`config.crop_strategies`, consumed by `ImageProcessor.apply_crop`). -/
structure Crop where
  name : String
  top : ℚ
  bottom : ℚ
  left : ℚ
  right : ℚ
deriving DecidableEq, Repr

/-- An image region: numpy arrays are modelled by their dimensions plus the
offsets of the viewed window into the original pixel buffer (a crop
`image[y0:y1, x0:x1]` is a view with adjusted dimensions and offsets).
Pixel contents are not modelled; the OCR engine is a function argument of
`find_best_crop`, exactly as `ocr_function` is in the source. -/
structure Img where
  h : ℕ
  w : ℕ
  oy : ℕ
  ox : ℕ
deriving DecidableEq, Repr

/-- Python `int()` on a rational: truncation toward zero. -/
def pyInt (q : ℚ) : ℤ :=
  q.num.tdiv q.den

/-- Model of `ImageProcessor.apply_crop` (`image_processor.py:21-54`): compute the
crop rectangle from the image's pixel dimensions, reject degenerate
rectangles and rectangles with an edge under 50 pixels, else return the
cropped view. -/
def apply_crop (image : Img) (crop : Crop) : Option Img :=
  let height : ℤ := image.h
  let width : ℤ := image.w
  let start_y := pyInt ((image.h : ℚ) * crop.top)
  let end_y := height - pyInt ((image.h : ℚ) * crop.bottom)
  let start_x := pyInt ((image.w : ℚ) * crop.left)
  let end_x := width - pyInt ((image.w : ℚ) * crop.right)
  if end_y ≤ start_y || end_x ≤ start_x then none
  else if end_y - start_y < 50 || end_x - start_x < 50 then none
  else some ⟨(end_y - start_y).toNat, (end_x - start_x).toNat,
             image.oy + start_y.toNat, image.ox + start_x.toNat⟩

/-- Model of `ImageProcessor._has_order_id` (`image_processor.py:132-135`):
`re.search` of the order-id pattern. -/
def has_order_id (text : String) : Bool :=
  go text.data
where
  go : List Char → Bool
    | [] => false
    | c :: cs => (matchOrderId (c :: cs)).isSome || go cs

/-- The result triple of an `ocr_function` call in `find_best_crop`
(`(text, confidence, processed)`, `image_processor.py:67`). -/
structure OcrOut where
  text : String
  conf : ℚ
  processed : Img
deriving DecidableEq, Repr

/-- The score of a recognition attempt in `find_best_crop`
(`image_processor.py:87,106`): `conf + 100 if has_order_id(text) else
conf`. -/
def cropScore (text : String) (conf : ℚ) : ℚ :=
  if has_order_id text then conf + 100 else conf

/-- The running best of the crop-search loop: the local variables
`best_text`, `best_conf`, `best_color`, `best_processed`,
`best_crop_params` and `score` of `find_best_crop`. -/
structure BestSt where
  text : String
  conf : ℚ
  color : Img
  processed : Img
  params : Option Crop
  score : ℚ
deriving DecidableEq, Repr

/-- The result tuple of `find_best_crop`
(`(best_color, text, confidence, processed, crop_params)`). -/
structure CropResult where
  color : Img
  text : String
  conf : ℚ
  processed : Img
  params : Option Crop
deriving DecidableEq, Repr

/-- The crop-strategy loop of `find_best_crop`
(`image_processor.py:98-124`): skip strategies whose crop is rejected,
score the OCR result of each applied crop, replace the running best on a
strictly greater score, and break after a replacement whose confidence
meets the threshold with an order id found. -/
def bestLoop (image : Img) (ocr : Img → OcrOut) (threshold : ℚ) :
    BestSt → List Crop → BestSt
  | st, [] => st
  | st, crop :: rest =>
    match apply_crop image crop with
    | none => bestLoop image ocr threshold st rest
    | some cropped =>
      let r := ocr cropped
      let crop_score := cropScore r.text r.conf
      if st.score < crop_score then
        let st' : BestSt :=
          ⟨r.text, r.conf, cropped, r.processed, some crop, crop_score⟩
        if threshold ≤ r.conf && has_order_id r.text then st'
        else bestLoop image ocr threshold st' rest
      else bestLoop image ocr threshold st rest

/-- Model of `ImageProcessor.find_best_crop` (`image_processor.py:56-130`):
OCR the full image first, return it immediately when its confidence meets
the threshold and an order id was found, otherwise run the crop-strategy
loop and return the resulting best. -/
def find_best_crop (image : Img) (ocr : Img → OcrOut)
    (crop_strategies : List Crop) (threshold_confidence : ℚ) : CropResult :=
  let r := ocr image
  let score := cropScore r.text r.conf
  if threshold_confidence ≤ r.conf && has_order_id r.text then
    ⟨image, r.text, r.conf, r.processed, none⟩
  else
    let st := bestLoop image ocr threshold_confidence
      ⟨r.text, r.conf, image, r.processed, none, score⟩ crop_strategies
    ⟨st.color, st.text, st.conf, st.processed, st.params⟩

/-! ### ocr_engine.py -/

/-- The engine data consumed by `_ocr_with_confidence` for one binarised
variant: the recognised text and the per-token confidences of
`image_to_data` (integers, with `-1` as the unknown-confidence sentinel
that the source filters out before conversion), plus the variant's
processed image. -/
structure OcrRead where
  text : String
  confs : List ℤ
  image : Img
deriving DecidableEq, Repr

/-- The mean-confidence computation of `_ocr_with_confidence`
(`ocr_engine.py:127-129`): arithmetic mean of the per-token confidences
with the `-1` sentinel entries excluded, `0.0` when none remain. -/
def mean_confidence (confs : List ℤ) : ℚ :=
  let cs := confs.filter (fun c => c ≠ -1)
  if cs.isEmpty then 0 else ((cs.map (fun c => (c : ℚ))).sum) / cs.length

/-- Model of `OCREngine._ocr_with_confidence` (`ocr_engine.py:109-141`), non-error
path: the stripped text and the mean confidence. -/
def ocr_with_confidence (r : OcrRead) : String × ℚ :=
  (pyStrip r.text, mean_confidence r.confs)

/-- The variant-selection tail of `OCREngine.preprocess_image`
(`ocr_engine.py:100-107`): run `_ocr_with_confidence` on the normal and
the bit-inverted binarised variant and return text, confidence and
processed image of the variant with the higher mean confidence (the
normal variant on a tie). -/
def preprocess_image (normal inverted : OcrRead) : OcrOut :=
  let n := ocr_with_confidence normal
  let i := ocr_with_confidence inverted
  if i.2 ≤ n.2 then ⟨n.1, n.2, normal.image⟩
  else ⟨i.1, i.2, inverted.image⟩

/-! ### extractor.py — escalation policy and merge -/

/-- The default `tesseract_confidence_threshold` of `ExtractorConfig`
(`config.py:37`). -/
def default_confidence_threshold : ℚ := 70

/-- Model of `MeowzonExtractor._should_use_ai` (`extractor.py:189-219`), with the
configuration fields `ai_mode` and `tesseract_confidence_threshold` passed
explicitly.  `ExtractorConfig.validate` (`config.py:114`) restricts the
mode to `never`, `hybrid` or `always`. -/
def should_use_ai (ai_mode : String) (threshold : ℚ)
    (extracted : List (String × List String)) (ocr_conf : ℚ) : Bool :=
  if ai_mode = "always" then true
  else if ai_mode = "never" then false
  else if ocr_conf < threshold then true
  else if (fget extracted "order_ids").isEmpty then true
  else if (fget extracted "items").isEmpty then true
  else false

/-- Model of `MeowzonExtractor._merge_results` (`extractor.py:221-250`): one entry
per key of the OCR dictionary; the AI list when non-empty, else the OCR
list when non-empty, else empty. -/
def merge_results (ocr_data ai_data : List (String × List String)) :
    List (String × List String) :=
  ocr_data.map (fun kv =>
    (kv.1,
     let ai_values := fget ai_data kv.1
     let ocr_values := fget ocr_data kv.1
     if !ai_values.isEmpty then ai_values
     else if !ocr_values.isEmpty then ocr_values
     else []))

/-! ### ai_providers.py — response normalisation -/

/-- Parsed JSON values, the element type of the dictionaries handed to
`AIProvider._normalize_to_lists` by `_parse_json_response`. -/
inductive PyJson where
  | null
  | bool (b : Bool)
  | num (q : ℚ)
  | str (s : String)
  | arr (elems : List PyJson)
  | obj (fields : List (String × PyJson))
deriving Repr

/-- Python truthiness of a JSON value, as used by the `if data.get(...)`
guards of `_normalize_to_lists`. -/
def truthy : PyJson → Bool
  | .null => false
  | .bool b => b
  | .num q => q ≠ 0
  | .str s => s ≠ ""
  | .arr l => !l.isEmpty
  | .obj l => !l.isEmpty

/-- Rendering of a rational as Python renders the corresponding JSON
number: exact for integers; the decimal rendering of non-integral floats
is abstracted (no theorem depends on it). -/
def ratStr (q : ℚ) : String :=
  if q.den = 1 then toString q.num else toString q

/-- Python `repr` of a JSON value (used inside container rendering). -/
def pyReprJ : PyJson → String
  | .null => "None"
  | .bool true => "True"
  | .bool false => "False"
  | .num q => ratStr q
  | .str s => String.singleton '\x27' ++ s ++ String.singleton '\x27'
  | .arr l => "[" ++ String.intercalate ", " (l.attach.map (fun x => pyReprJ x.1)) ++ "]"
  | .obj l =>
    "\x7b" ++ String.intercalate ", "
      (l.attach.map (fun x =>
        String.singleton '\x27' ++ x.1.1 ++ String.singleton '\x27' ++ ": "
          ++ pyReprJ x.1.2)) ++ "\x7d"
decreasing_by
  · have := List.sizeOf_lt_of_mem x.2
    simp only [PyJson.arr.sizeOf_spec]
    omega
  · have h1 := List.sizeOf_lt_of_mem x.2
    have h2 : sizeOf x.1.2 < sizeOf x.1 := by
      obtain ⟨a, b⟩ := x.1
      simp only [Prod.mk.sizeOf_spec]
      omega
    simp only [PyJson.obj.sizeOf_spec]
    omega

/-- Python `str()` of a JSON value (`str(data['order_id'])` etc. in
`_normalize_to_lists`). -/
def pyStr : PyJson → String
  | .str s => s
  | j => pyReprJ j

/-- Model of `data.get(key)` on a parsed JSON dictionary, `None` when missing. -/
def jget (d : List (String × PyJson)) (k : String) : PyJson :=
  match d with
  | [] => .null
  | (k', v) :: rest => if k' = k then v else jget rest k

/-- Model of `data.get(key, [])` followed by the `isinstance(…, list)` guard of
`_normalize_to_lists` (`ai_providers.py:153-154,170-171`): the element
list when the value is a list, else nothing to iterate. -/
def jlist (d : List (String × PyJson)) (k : String) : List PyJson :=
  match jget d k with
  | .arr l => l
  | _ => []

/-- A scalar field appended when truthy (`ai_providers.py:132-150`). -/
def jfield (d : List (String × PyJson)) (k : String) : List String :=
  if truthy (jget d k) then [pyStr (jget d k)] else []

/-- Model of `AIProvider._normalize_to_lists` (`ai_providers.py:111-174`): the
eight-key dictionary (in the insertion order of the source) built from the
scalar fields, the `items` objects and the `other_prices` list. -/
def normalize_to_lists (data : List (String × PyJson)) :
    List (String × List String) :=
  let itemObjs := (jlist data "items").filterMap
    (fun j => match j with | .obj kvs => some kvs | _ => none)
  let itemNames := itemObjs.flatMap (fun o => jfield o "name")
  let itemQtys := itemObjs.flatMap (fun o => jfield o "quantity")
  let itemPrices := itemObjs.flatMap (fun o => jfield o "price")
  let otherPrices := (jlist data "other_prices").filterMap
    (fun p => if truthy p then some (pyStr p) else none)
  [("order_ids", jfield data "order_id"),
   ("prices", itemPrices ++ otherPrices),
   ("dates", jfield data "order_date"),
   ("totals", jfield data "total"),
   ("quantities", itemQtys),
   ("sellers", jfield data "seller"),
   ("tracking_numbers", jfield data "tracking_number"),
   ("items", itemNames)]

/-! ### analytics.py — DuplicateDetector.merge_duplicates -/

/-- One row of the results table, restricted to the columns
`merge_duplicates` reads or writes (`File Name`, `Order IDs`,
`Tesseract Confidence (%)`, `is_duplicate`); all other columns pass
through rows unchanged and are not modelled. -/
structure OrderRow where
  fileName : String
  orderIdsCol : String
  tessConf : ℚ
  isDuplicate : Bool
deriving DecidableEq, Repr, Inhabited

/-- The `Order IDs` column as `process_single_file` writes it
(`" | ".join(order_ids)`, `extractor.py:167`). -/
def joinPipe (order_ids : List String) : String :=
  String.intercalate " | " order_ids

/-- The `_first_order_id` helper column
(`df['Order IDs'].str.split('|').str[0]`, `analytics.py:292`): the first
`|`-separated piece of the joined `Order IDs` string (the empty string for
rows without order ids; for rows with several ids the piece keeps the
trailing space of the `" | "` join). -/
def rowKey (r : OrderRow) : String :=
  String.mk ((splitOnChar '|' r.orderIdsCol.data).headD [])

/-- Lexicographic strict comparison of character lists by code point, the
order Python uses to compare strings (and `groupby(sort=True)` to sort
string keys). -/
def listLtChars : List Char → List Char → Bool
  | [], [] => false
  | [], _ :: _ => true
  | _ :: _, [] => false
  | a :: as, b :: bs =>
    if a < b then true
    else if b < a then false
    else listLtChars as bs

/-- Model of `a <= b` on strings, by code point. -/
def strLe (a b : String) : Bool :=
  !(listLtChars b.data a.data)

/-- Insert into a sorted list of strings (ascending). -/
def insertSorted (s : String) : List String → List String
  | [] => [s]
  | t :: ts => if strLe s t then s :: t :: ts else t :: insertSorted s ts

/-- Ascending sort of the group keys, as `df.groupby` (default
`sort=True`) iterates them. -/
def sortStrings (l : List String) : List String :=
  l.foldr insertSorted []

/-- The rows of one group, in original row order (as `groupby` keeps
them). -/
def groupOf (df : List OrderRow) (k : String) : List OrderRow :=
  df.filter (fun r => rowKey r = k)

/-- Model of `group.loc[group['Tesseract Confidence (%)'].idxmax()]`
(`analytics.py:306`): the first row attaining the maximal confidence. -/
def bestByConf : List OrderRow → OrderRow
  | [] => default
  | r :: rs => rs.foldl (fun acc x => if acc.tessConf < x.tessConf then x else acc) r

/-- The per-group body of the `merge_duplicates` loop
(`analytics.py:299-315`): singleton groups pass through; larger groups
keep the highest-confidence row with the concatenated file names and the
duplicate mark. -/
def consolidate (group : List OrderRow) : OrderRow :=
  match group with
  | [r] => r
  | g =>
    let best := bestByConf g
    { best with
      fileName := String.intercalate " + " (g.map OrderRow.fileName),
      isDuplicate := true }

/-- Model of `DuplicateDetector.merge_duplicates` (`analytics.py:277-320`): group
the rows by the first `|`-separated piece of their `Order IDs` column and
emit one consolidated row per group, in ascending key order (the helper
column is dropped again and the index reset, which the model does not
represent).  The guard for a missing `Order IDs` column does not arise:
the modelled rows always carry the column. -/
def merge_duplicates (df : List OrderRow) : List OrderRow :=
  (sortStrings (dedupFirst (df.map rowKey))).map (fun k => consolidate (groupOf df k))

/-! ### Helper decompositions of `calculate_confidence` -/

/-- The order-id bonus of `calculate_confidence`
(`data_extractor.py:185-187`): 25 when the first extracted order id is
valid. -/
def order_id_bonus (extracted : List (String × List String)) : ℚ :=
  match fget extracted "order_ids" with
  | [] => 0
  | x :: _ => if validate_order_id x then 25 else 0

/-- The items bonus of `calculate_confidence` (`data_extractor.py:189-190`). -/
def items_bonus (extracted : List (String × List String)) : ℚ :=
  match fget extracted "items" with
  | [] => 0
  | l => ((min (l.length * 5) 20 : ℕ) : ℚ)

/-- The totals bonus of `calculate_confidence` (`data_extractor.py:192-193`). -/
def totals_bonus (extracted : List (String × List String)) : ℚ :=
  if (fget extracted "totals").isEmpty then 0 else 10

/-- The dates bonus of `calculate_confidence` (`data_extractor.py:195-196`). -/
def dates_bonus (extracted : List (String × List String)) : ℚ :=
  if (fget extracted "dates").isEmpty then 0 else 5

/-- The raw (unclamped) confidence sum of `calculate_confidence`. -/
def confidence_raw (extracted : List (String × List String))
    (ocr_confidence : ℚ) : ℚ :=
  ocr_confidence * (2 / 5) + order_id_bonus extracted + items_bonus extracted
    + totals_bonus extracted + dates_bonus extracted

/-! ### Specification-worded comparison definitions

These two definitions follow the words of the specification sentences
under examination (not the source); they exist only to be compared with
the source-derived functions above. -/

/-- The confidence formula as the specification words it: the +25 order-id
bonus fires when a valid order id is present anywhere among the extracted
`order_ids` (the source checks only the first entry). -/
def spec_confidence (extracted : List (String × List String))
    (ocr_confidence : ℚ) : ℚ :=
  min (ocr_confidence * (2 / 5)
    + (if (fget extracted "order_ids").any validate_order_id then 25 else 0)
    + items_bonus extracted + totals_bonus extracted + dates_bonus extracted)
    100

/-- The stop-keyword list as the specification words it (without
`quantity`, `arrives` and `account`). -/
def specKeywords : List (List Char) :=
  ["total".data, "shipping".data, "tax".data, "qty".data, "sold by".data,
   "order".data, "delivery".data, "return".data, "refund".data,
   "customer".data, "payment".data, "credit".data, "gift".data]

/-- The item extraction as the specification words it: keep the non-empty
lines themselves (not their cleaned forms) whose cleaned length exceeds 15,
whose first character is uppercase and which contain none of the thirteen
stop keywords; de-duplicate preserving first-seen order. -/
def spec_extract_items (text : String) : List String :=
  dedupFirst (((linesOf text).filter (fun l =>
    15 < (cleanLine l).length &&
    !(specKeywords.any (fun kw => containsSub (pyLower l) kw)) &&
    (match l with
     | [] => false
     | c :: _ => c.isUpper))).map String.mk)

/-! ### Concrete instances used by witnesses and counterexamples -/

/-- Extracted data whose first order id is malformed while the second is
valid. -/
def dataFirstBad : List (String × List String) :=
  [("order_ids", ["123-456", "123-4567890-1234567"])]

/-- Extracted data with a valid order id, items, a total and a date. -/
def dataFull : List (String × List String) :=
  [("order_ids", ["123-4567890-1234567"]),
   ("items", ["Deluxe Cat Tree Tower"]),
   ("totals", ["$59.99"]),
   ("dates", ["2024-01-05"])]

/-- Item-heuristic input: a line with the `quantity` keyword, a line with
an embedded price, and a line whose cleaned length is exactly 15. -/
def itemsText : String :=
  "Quantity of lovely cat condos\nFluffy Cat Castle Tower $49.99\nCat scratcher X"

/-- A 1000×1000 input image. -/
def imgFull : Img := ⟨1000, 1000, 0, 0⟩

/-- A crop strategy removing the right half of the image. -/
def cropRight : Crop := ⟨"Right Half", 0, 0, 0, 1/2⟩

/-- An OCR function finding the order id at confidence 30 on the full
image and at confidence 50 on any crop. -/
def ocrLowFull (im : Img) : OcrOut :=
  if im.w = 1000 then ⟨"order 123-4567890-1234567", 30, im⟩
  else ⟨"zoom 123-4567890-1234567", 50, im⟩

/-- An OCR function finding the order id at confidence 80 everywhere. -/
def ocrHighFull (im : Img) : OcrOut :=
  ⟨"ok 123-4567890-1234567", 80, im⟩

/-- An OCR function finding no order id, with the full image beating every
crop. -/
def ocrNoId (im : Img) : OcrOut :=
  if im.w = 1000 then ⟨"just text", 40, im⟩ else ⟨"crop text", 20, im⟩

/-- Engine data for the normal binarised variant: mean 55. -/
def readNormal : OcrRead := ⟨" hello ", [50, -1, 60], ⟨3, 3, 0, 0⟩⟩

/-- Engine data for the inverted binarised variant: mean 90. -/
def readInverted : OcrRead := ⟨"inverted text", [90, -1], ⟨4, 4, 0, 0⟩⟩

/-- Two result rows with no order id at all. -/
def rowNoId1 : OrderRow := ⟨"a.png", "", 60, false⟩

/-- Second result row with no order id. -/
def rowNoId2 : OrderRow := ⟨"b.png", "", 90, false⟩

/-- Rows of the duplicate-consolidation example: three sharing one order
id at confidences 60, 90 and 75, and one with no order id. -/
def rowsExample : List OrderRow :=
  [⟨"one.png", "111-1111111-1111111", 60, false⟩,
   ⟨"two.png", "111-1111111-1111111", 90, false⟩,
   ⟨"three.png", "111-1111111-1111111", 75, false⟩,
   ⟨"four.png", "", 50, false⟩]

/-- A text with an order id on one line. -/
def idText : String := "123-4567890-1234567"

/-- A text without an order id. -/
def plainText : String := "meow"

/-- Local extraction of the merge example: an order id, no items. -/
def mergeLocal : List (String × List String) :=
  [("order_ids", ["A"]), ("items", [])]

/-- AI extraction of the merge example: no order id, one item. -/
def mergeAI : List (String × List String) :=
  [("order_ids", []), ("items", ["Widget"])]

/-! ## Lemmas -/

theorem fget_map_keys (g : String → List String) (l : List (String × List String))
    (k : String) :
    fget (l.map (fun kv => (kv.1, g kv.1))) k =
      if k ∈ l.map Prod.fst then g k else [] := by
  induction l with
  | nil => simp [fget]
  | cons a t ih =>
    simp only [List.map_cons, fget, List.mem_cons]
    by_cases h : a.1 = k
    · subst h
      simp
    · simp only [h, if_false, ih]
      by_cases hm : k ∈ t.map Prod.fst
      · simp [hm, Ne.symm h]
      · simp [hm, Ne.symm h, h]

theorem order_id_bonus_nonneg (d : List (String × List String)) :
    0 ≤ order_id_bonus d := by
  unfold order_id_bonus
  split <;> [norm_num; split <;> norm_num]

theorem items_bonus_nonneg (d : List (String × List String)) :
    0 ≤ items_bonus d := by
  unfold items_bonus
  split <;> positivity

theorem totals_bonus_nonneg (d : List (String × List String)) :
    0 ≤ totals_bonus d := by
  unfold totals_bonus
  split <;> norm_num

theorem dates_bonus_nonneg (d : List (String × List String)) :
    0 ≤ dates_bonus d := by
  unfold dates_bonus
  split <;> norm_num

theorem calculate_confidence_eq_raw (d : List (String × List String)) (c : ℚ) :
    calculate_confidence d c = min (confidence_raw d c) 100 := by
  unfold calculate_confidence confidence_raw order_id_bonus items_bonus
    totals_bonus dates_bonus
  cases h : fget d "order_ids" <;>
    cases h2 : fget d "items" <;>
      simp [h, h2] <;> split_ifs <;> ring_nf

/-! ## Claim C1 -/

/-- C1 counterexample: the claimed formula adds 25 when a valid order id is
present anywhere among `order_ids`, but `calculate_confidence` checks only
the first entry — on `dataFirstBad` (first id malformed, second valid) the
source yields 0 while the claimed formula yields 25. -/
theorem calculate_confidence_first_id_only :
    calculate_confidence dataFirstBad 0 = 0
    ∧ spec_confidence dataFirstBad 0 = 25
    ∧ calculate_confidence dataFirstBad 0 ≠ spec_confidence dataFirstBad 0 := by
  have hb1 : order_id_bonus dataFirstBad = 0 := rfl
  have hb2 : items_bonus dataFirstBad = 0 := rfl
  have hb3 : totals_bonus dataFirstBad = 0 := rfl
  have hb4 : dates_bonus dataFirstBad = 0 := rfl
  have hraw : confidence_raw dataFirstBad 0 = 0 := by
    rw [confidence_raw, hb1, hb2, hb3, hb4]; ring
  have e1 : calculate_confidence dataFirstBad 0 = 0 := by
    rw [calculate_confidence_eq_raw, hraw]
    exact min_eq_left (by norm_num)
  have hany : (fget dataFirstBad "order_ids").any validate_order_id = true := by
    decide
  have e2 : spec_confidence dataFirstBad 0 = 25 := by
    rw [spec_confidence, hb2, hb3, hb4]
    simp only [hany, if_true]
    have : (0 : ℚ) * (2 / 5) + 25 + 0 + 0 + 0 = 25 := by ring
    rw [this]
    exact min_eq_left (by norm_num)
  exact ⟨e1, e2, by rw [e1, e2]; norm_num⟩

/-- C1 (amended): for `ocrConfidence` in `[0, 100]`, `calculate_confidence`
equals `0.4 * ocrConfidence` plus 25 when the *first* entry of `orderIds`
matches the canonical digit-dash pattern exactly, plus `min(5 * #items,
20)` when items are non-empty, plus 10 for a total, plus 5 for a date,
clamped to `[0, 100]`; it is monotonic in `ocrConfidence` and equals 100
whenever the raw sum exceeds 100. -/
theorem calculate_confidence_formula (d : List (String × List String))
    (c c' : ℚ) (h0 : 0 ≤ c) (h1 : c ≤ 100) (h2 : c ≤ c') :
    calculate_confidence d c = min (confidence_raw d c) 100
    ∧ 0 ≤ calculate_confidence d c
    ∧ calculate_confidence d c ≤ 100
    ∧ calculate_confidence d c ≤ calculate_confidence d c'
    ∧ (100 < confidence_raw d c → calculate_confidence d c = 100) := by
  have hb1 := order_id_bonus_nonneg d
  have hb2 := items_bonus_nonneg d
  have hb3 := totals_bonus_nonneg d
  have hb4 := dates_bonus_nonneg d
  have hraw : 0 ≤ confidence_raw d c := by
    unfold confidence_raw
    have : 0 ≤ c * (2 / 5) := by positivity
    linarith
  have hmono : confidence_raw d c ≤ confidence_raw d c' := by
    unfold confidence_raw
    have : c * (2 / 5) ≤ c' * (2 / 5) := by linarith
    linarith
  refine ⟨calculate_confidence_eq_raw d c, ?_, ?_, ?_, ?_⟩
  · rw [calculate_confidence_eq_raw]
    exact le_min hraw (by norm_num)
  · rw [calculate_confidence_eq_raw]
    exact min_le_right _ _
  · rw [calculate_confidence_eq_raw, calculate_confidence_eq_raw]
    exact min_le_min hmono le_rfl
  · intro h
    rw [calculate_confidence_eq_raw]
    exact min_eq_right (le_of_lt h)

/-- C1 witness: the amended formula at a concrete input. -/
theorem calculate_confidence_formula_witness :
    (0 : ℚ) ≤ 50 ∧ (50 : ℚ) ≤ 100 ∧ (50 : ℚ) ≤ 80
    ∧ calculate_confidence dataFull 50 ≤ calculate_confidence dataFull 80
    ∧ calculate_confidence dataFull 50 = min (confidence_raw dataFull 50) 100 := by
  have h := calculate_confidence_formula dataFull 50 80
    (by norm_num) (by norm_num) (by norm_num)
  exact ⟨by norm_num, by norm_num, by norm_num, h.2.2.2.1, h.1⟩

/-! ## Claim C5 -/

theorem collectItems_eq (ls : List (List Char)) :
    collectItems ls = ((ls.map cleanLine).filter keepItemLine).map String.mk := by
  induction ls with
  | nil => rfl
  | cons l t ih =>
    by_cases h : keepItemLine (cleanLine l) <;>
      simp [collectItems, h, ih]

/-- C5 counterexample: on `itemsText` the source drops the line with the
`quantity` keyword (not in the claimed stop list), keeps the line whose
cleaned length is exactly 15 (the claim requires strictly more than 15)
and returns cleaned lines rather than the original lines; the claimed
characterisation `spec_extract_items` disagrees on all three counts. -/
theorem extract_items_spec_filter_refuted :
    extract_items itemsText = ["Fluffy Cat Castle Tower", "Cat scratcher X"]
    ∧ spec_extract_items itemsText =
        ["Quantity of lovely cat condos", "Fluffy Cat Castle Tower $49.99"]
    ∧ extract_items itemsText ≠ spec_extract_items itemsText := by
  refine ⟨by decide, by decide, by decide⟩

/-- C5 (amended): `extract_items` returns, de-duplicated preserving
first-seen order, the *cleaned* forms (prices and order-id tails stripped,
then stripped of whitespace) of the non-empty lines whose cleaned length
is at least 15, whose cleaned form starts with an uppercase character and
whose lowercased cleaned form contains none of the sixteen stop keywords
of the source (including `quantity`, `arrives` and `account`). -/
theorem extract_items_characterization (text : String) :
    extract_items text =
      dedupFirst ((((linesOf text).map cleanLine).filter keepItemLine).map
        String.mk) := by
  rw [extract_items, collectItems_eq]

/-! ## Claim C6 -/

/-- C6: per field key of the local dictionary, the merged value is the AI
list when non-empty, else the local list (which is itself empty when both
are empty); the merged dictionary has exactly the local keys.  AI values
are never unioned with local values: the merged value is always one of
the two lists unchanged. -/
theorem merge_results_field_override (ocr_data ai_data : List (String × List String))
    (k : String) (hk : k ∈ ocr_data.map Prod.fst) :
    fget (merge_results ocr_data ai_data) k =
      (if (fget ai_data k).isEmpty then fget ocr_data k else fget ai_data k)
    ∧ (merge_results ocr_data ai_data).map Prod.fst = ocr_data.map Prod.fst := by
  constructor
  · have h := fget_map_keys (fun key =>
      let ai_values := fget ai_data key
      let ocr_values := fget ocr_data key
      if !ai_values.isEmpty then ai_values
      else if !ocr_values.isEmpty then ocr_values
      else []) ocr_data k
    rw [if_pos hk] at h
    rw [merge_results] at *
    rw [h]
    by_cases ha : (fget ai_data k).isEmpty
    · by_cases ho : (fget ocr_data k).isEmpty
      · simp [ha, ho, List.isEmpty_iff.mp ho]
      · simp [ha, ho]
    · simp [ha]
  · simp [merge_results]

/-- C6 witness: the merge example of the specification, at the
`order_ids` key. -/
theorem merge_results_field_override_witness :
    "order_ids" ∈ mergeLocal.map Prod.fst
    ∧ fget (merge_results mergeLocal mergeAI) "order_ids" =
        (if (fget mergeAI "order_ids").isEmpty then fget mergeLocal "order_ids"
         else fget mergeAI "order_ids") :=
  ⟨by decide,
   (merge_results_field_override mergeLocal mergeAI "order_ids" (by decide)).1⟩

/-! ## Claim C7 -/

/-- C7 counterexample: with both confidences in `[0, 100]`, a candidate
with an order id does not always strictly outrank a candidate without
one — at confidence 0 with an id and confidence 100 without, both score
exactly 100. -/
theorem cropScore_tie_at_bounds :
    has_order_id idText = true ∧ has_order_id plainText = false
    ∧ cropScore idText 0 = 100 ∧ cropScore plainText 100 = 100
    ∧ ¬ (cropScore plainText 100 < cropScore idText 0) := by
  have h1 : has_order_id idText = true := by decide
  have h2 : has_order_id plainText = false := by decide
  have e1 : cropScore idText 0 = 100 := by
    simp [cropScore, h1]
  have e2 : cropScore plainText 100 = 100 := by
    simp [cropScore, h2]
  exact ⟨h1, h2, e1, e2, by rw [e1, e2]; norm_num⟩

/-- C7 (amended): for confidences in `[0, 100]`, a candidate with a
detected order id scores at least as high as a candidate without one, and
strictly higher except in the single boundary case where the id-candidate
has confidence 0 and the other confidence 100 (both then score 100); in
particular confidence 60 with an id scores 160 and confidence 95 without
scores 95. -/
theorem cropScore_id_dominates (t1 t2 : String) (c1 c2 : ℚ)
    (h1 : has_order_id t1 = true) (h2 : has_order_id t2 = false)
    (hc1 : 0 ≤ c1) (hc1' : c1 ≤ 100) (hc2 : 0 ≤ c2) (hc2' : c2 ≤ 100) :
    cropScore t2 c2 ≤ cropScore t1 c1
    ∧ ((0 < c1 ∨ c2 < 100) → cropScore t2 c2 < cropScore t1 c1)
    ∧ cropScore t1 60 = 160 ∧ cropScore t2 95 = 95 := by
  simp only [cropScore, h1, h2, Bool.false_eq_true, if_true, if_false]
  refine ⟨by linarith, ?_, by norm_num, by trivial⟩
  rintro (h | h) <;> linarith

/-- C7 witness: the 60-with-id versus 95-without example. -/
theorem cropScore_id_dominates_witness :
    cropScore plainText 95 < cropScore idText 60
    ∧ cropScore idText 60 = 160 ∧ cropScore plainText 95 = 95 := by
  have h := cropScore_id_dominates idText plainText 60 95
    (by decide) (by decide) (by norm_num) (by norm_num) (by norm_num) (by norm_num)
  exact ⟨h.2.1 (Or.inl (by norm_num)), h.2.2.1, h.2.2.2⟩

/-! ## Claim C8 -/

/-- C8: `should_use_ai` is constantly false in `never` mode, constantly
true in `always` mode, and in `hybrid` mode true exactly when the OCR
confidence is below the configured threshold (default 70) or the extracted
order ids or items are empty; the decision depends on no other signal. -/
theorem should_use_ai_modes (threshold : ℚ)
    (extracted : List (String × List String)) (ocr_conf : ℚ) :
    should_use_ai "never" threshold extracted ocr_conf = false
    ∧ should_use_ai "always" threshold extracted ocr_conf = true
    ∧ (should_use_ai "hybrid" threshold extracted ocr_conf = true ↔
        ocr_conf < threshold ∨ fget extracted "order_ids" = []
          ∨ fget extracted "items" = [])
    ∧ default_confidence_threshold = 70 := by
  refine ⟨by simp [should_use_ai], by simp [should_use_ai], ?_, rfl⟩
  rw [should_use_ai]
  simp only [show ("hybrid" = "always") = False by simp,
    show ("hybrid" = "never") = False by simp, if_false]
  split_ifs with hconf hid hitems <;>
    simp_all [List.isEmpty_iff]

/-! ## Claim C9 -/

/-- C9: `extract_all` returns exactly the eight field keys, in source
order, each bound to a (possibly empty) list, and `normalize_to_lists`
produces dictionaries of exactly the same shape for every parsed AI
response, so every field dictionary entering the merge has all eight
keys. -/
theorem extract_all_eight_keys (text : String) (data : List (String × PyJson)) :
    (extract_all text).map Prod.fst =
      ["order_ids", "prices", "dates", "totals", "quantities", "sellers",
       "tracking_numbers", "items"]
    ∧ (normalize_to_lists data).map Prod.fst =
      ["order_ids", "prices", "dates", "totals", "quantities", "sellers",
       "tracking_numbers", "items"] :=
  ⟨rfl, rfl⟩

/-! ## Claim C4 -/

/-- C4: the normaliser computes each variant's confidence as the
arithmetic mean of the engine's per-token confidences with the `-1`
sentinel entries excluded (0 when none remain), and returns text,
confidence and processed image of the variant with the strictly higher
mean confidence, discarding the other; the returned confidence is the
maximum of the two means. -/
theorem preprocess_image_selects_higher (normal inverted : OcrRead) :
    (∀ cs : List ℤ, mean_confidence cs =
      if (cs.filter (fun c => c ≠ -1)).isEmpty then 0
      else ((cs.filter (fun c => c ≠ -1)).map (fun c => (c : ℚ))).sum
        / (cs.filter (fun c => c ≠ -1)).length)
    ∧ (preprocess_image normal inverted).conf =
        max (mean_confidence normal.confs) (mean_confidence inverted.confs)
    ∧ (mean_confidence normal.confs < mean_confidence inverted.confs →
        preprocess_image normal inverted =
          ⟨pyStrip inverted.text, mean_confidence inverted.confs, inverted.image⟩)
    ∧ (mean_confidence inverted.confs < mean_confidence normal.confs →
        preprocess_image normal inverted =
          ⟨pyStrip normal.text, mean_confidence normal.confs, normal.image⟩) := by
  refine ⟨fun cs => rfl, ?_, ?_, ?_⟩
  · by_cases h : mean_confidence inverted.confs ≤ mean_confidence normal.confs
    · simp [preprocess_image, ocr_with_confidence, h, max_eq_left h]
    · have h' := le_of_not_le h
      simp [preprocess_image, ocr_with_confidence, h, max_eq_right h']
  · intro h
    simp [preprocess_image, ocr_with_confidence, not_le.mpr h]
  · intro h
    simp [preprocess_image, ocr_with_confidence, le_of_lt h]

/-- C4 witness: normal variant mean 55, inverted variant mean 90; the
inverted variant is returned. -/
theorem preprocess_image_selects_higher_witness :
    mean_confidence readNormal.confs < mean_confidence readInverted.confs
    ∧ preprocess_image readNormal readInverted =
        ⟨pyStrip readInverted.text, mean_confidence readInverted.confs,
         readInverted.image⟩ := by
  have hn : mean_confidence readNormal.confs = 55 := by
    norm_num [mean_confidence, readNormal]
  have hi : mean_confidence readInverted.confs = 90 := by
    norm_num [mean_confidence, readInverted]
  have hlt : mean_confidence readNormal.confs < mean_confidence readInverted.confs := by
    rw [hn, hi]; norm_num
  exact ⟨hlt, (preprocess_image_selects_higher readNormal readInverted).2.2.1 hlt⟩

/-! ## Claim C2 -/

theorem mem_dedupFirstAux [DecidableEq α] (l : List α) :
    ∀ (seen : List α) (a : α),
      a ∈ dedupFirstAux seen l ↔ (a ∈ l ∧ a ∉ seen) := by
  induction l with
  | nil => intro seen a; simp [dedupFirstAux]
  | cons x xs ih =>
    intro seen a
    by_cases hx : x ∈ seen
    · rw [dedupFirstAux, if_pos hx, ih]
      constructor
      · rintro ⟨h1, h2⟩; exact ⟨List.mem_cons_of_mem _ h1, h2⟩
      · rintro ⟨h1, h2⟩
        rcases List.mem_cons.mp h1 with h | h
        · subst h; exact absurd hx h2
        · exact ⟨h, h2⟩
    · rw [dedupFirstAux, if_neg hx]
      constructor
      · intro h
        rcases List.mem_cons.mp h with h | h
        · subst h; exact ⟨List.mem_cons_self _ _, hx⟩
        · rcases (ih _ _).mp h with ⟨h1, h2⟩
          refine ⟨List.mem_cons_of_mem _ h1, fun hs => h2 (List.mem_cons_of_mem _ hs)⟩
      · rintro ⟨h1, h2⟩
        rcases List.mem_cons.mp h1 with h | h
        · subst h; exact List.mem_cons_self _ _
        · by_cases hax : a = x
          · subst hax; exact List.mem_cons_self _ _
          · refine List.mem_cons_of_mem _ ((ih _ _).mpr ⟨h, ?_⟩)
            intro hs
            rcases List.mem_cons.mp hs with h' | h'
            · exact hax h'
            · exact h2 h'

theorem mem_dedupFirst [DecidableEq α] (l : List α) (a : α) :
    a ∈ dedupFirst l ↔ a ∈ l := by
  rw [dedupFirst, mem_dedupFirstAux]
  simp

theorem mem_insertSorted (s a : String) (l : List String) :
    a ∈ insertSorted s l ↔ (a = s ∨ a ∈ l) := by
  induction l with
  | nil => simp [insertSorted]
  | cons t ts ih =>
    rw [insertSorted]
    split_ifs <;> simp [ih] <;> tauto

theorem length_insertSorted (s : String) (l : List String) :
    (insertSorted s l).length = l.length + 1 := by
  induction l with
  | nil => rfl
  | cons t ts ih =>
    rw [insertSorted]
    split_ifs <;> simp [ih]

theorem mem_sortStrings (l : List String) (a : String) :
    a ∈ sortStrings l ↔ a ∈ l := by
  induction l with
  | nil => simp [sortStrings]
  | cons t ts ih =>
    rw [sortStrings, List.foldr_cons, mem_insertSorted]
    rw [sortStrings] at ih
    rw [ih]
    simp

theorem length_sortStrings (l : List String) :
    (sortStrings l).length = l.length := by
  induction l with
  | nil => rfl
  | cons t ts ih =>
    rw [sortStrings, List.foldr_cons, length_insertSorted]
    rw [sortStrings] at ih
    rw [ih, List.length_cons]

theorem bestByConf_foldl_mem (rs : List OrderRow) :
    ∀ acc : OrderRow,
      rs.foldl (fun acc x => if acc.tessConf < x.tessConf then x else acc) acc = acc
      ∨ rs.foldl (fun acc x => if acc.tessConf < x.tessConf then x else acc) acc ∈ rs := by
  induction rs with
  | nil => intro acc; left; rfl
  | cons r t ih =>
    intro acc
    rw [List.foldl_cons]
    by_cases h : acc.tessConf < r.tessConf
    · rw [if_pos h]
      rcases ih r with h' | h'
      · right; rw [h']; exact List.mem_cons_self _ _
      · right; exact List.mem_cons_of_mem _ h'
    · rw [if_neg h]
      rcases ih acc with h' | h'
      · left; exact h'
      · right; exact List.mem_cons_of_mem _ h'

theorem bestByConf_foldl_le (rs : List OrderRow) :
    ∀ acc : OrderRow,
      acc.tessConf ≤
        (rs.foldl (fun acc x => if acc.tessConf < x.tessConf then x else acc) acc).tessConf
      ∧ ∀ x ∈ rs, x.tessConf ≤
        (rs.foldl (fun acc x => if acc.tessConf < x.tessConf then x else acc) acc).tessConf := by
  induction rs with
  | nil => intro acc; exact ⟨le_rfl, by simp⟩
  | cons r t ih =>
    intro acc
    rw [List.foldl_cons]
    by_cases h : acc.tessConf < r.tessConf
    · rw [if_pos h]
      refine ⟨le_trans (le_of_lt h) (ih r).1, ?_⟩
      intro x hx
      rcases List.mem_cons.mp hx with h' | h'
      · rw [h']; exact (ih r).1
      · exact (ih r).2 x h'
    · rw [if_neg h]
      refine ⟨(ih acc).1, ?_⟩
      intro x hx
      rcases List.mem_cons.mp hx with h' | h'
      · rw [h']; exact le_trans (le_of_not_lt h) (ih acc).1
      · exact (ih acc).2 x h'

theorem bestByConf_mem (g : List OrderRow) (hg : g ≠ []) :
    bestByConf g ∈ g := by
  cases g with
  | nil => exact absurd rfl hg
  | cons r rs =>
    rw [bestByConf]
    rcases bestByConf_foldl_mem rs r with h | h
    · rw [h]; exact List.mem_cons_self _ _
    · exact List.mem_cons_of_mem _ h

theorem bestByConf_le (g : List OrderRow) (x : OrderRow) (hx : x ∈ g) :
    x.tessConf ≤ (bestByConf g).tessConf := by
  cases g with
  | nil => simp at hx
  | cons r rs =>
    rw [bestByConf]
    rcases List.mem_cons.mp hx with h | h
    · subst h; exact (bestByConf_foldl_le rs x).1
    · exact (bestByConf_foldl_le rs r).2 x h

/-- C2 counterexample: two records with no order id at all share the empty
group key, are merged into one representative and marked as duplicates —
the claim says records with no order id are never merged and pass through
as non-duplicate singletons. -/
theorem merge_duplicates_no_id_merged :
    rowNoId1.orderIdsCol = joinPipe [] ∧ rowNoId2.orderIdsCol = joinPipe []
    ∧ merge_duplicates [rowNoId1, rowNoId2] =
        [⟨"a.png + b.png", "", 90, true⟩] := by
  refine ⟨rfl, rfl, by decide⟩

/-- C2 (amended): `merge_duplicates` groups rows by the first
`|`-separated piece of the joined `Order IDs` column (so rows with no
order id all share the empty key and are merged together like any other
group, and the key of a multi-id row carries a trailing space), emits one
row per distinct key (in ascending key order); a group of size one passes
through unchanged, and a larger group is represented by its first
highest-confidence row with the `" + "`-concatenation of all the group's
file names and the duplicate mark set. -/
theorem merge_duplicates_groups_spec (df : List OrderRow) (k : String)
    (hk : k ∈ df.map rowKey) :
    consolidate (groupOf df k) ∈ merge_duplicates df
    ∧ (∀ r : OrderRow, r ∈ groupOf df k ↔ (r ∈ df ∧ rowKey r = k))
    ∧ (∀ r : OrderRow, groupOf df k = [r] → consolidate (groupOf df k) = r)
    ∧ (1 < (groupOf df k).length →
        (consolidate (groupOf df k)).isDuplicate = true
        ∧ (consolidate (groupOf df k)).fileName =
            String.intercalate " + " ((groupOf df k).map OrderRow.fileName)
        ∧ bestByConf (groupOf df k) ∈ groupOf df k
        ∧ (consolidate (groupOf df k)).tessConf = (bestByConf (groupOf df k)).tessConf
        ∧ ∀ r ∈ groupOf df k, r.tessConf ≤ (bestByConf (groupOf df k)).tessConf)
    ∧ (merge_duplicates df).length = (dedupFirst (df.map rowKey)).length := by
  refine ⟨?_, ?_, ?_, ?_, ?_⟩
  · rw [merge_duplicates]
    exact List.mem_map.mpr
      ⟨k, (mem_sortStrings _ _).mpr ((mem_dedupFirst _ _).mpr hk), rfl⟩
  · intro r
    simp [groupOf, List.mem_filter]
  · intro r h
    rw [h]
    rfl
  · intro hlen
    rcases hg : groupOf df k with _ | ⟨a, _ | ⟨b, t⟩⟩
    · rw [hg] at hlen; simp at hlen
    · rw [hg] at hlen; simp at hlen
    · refine ⟨rfl, rfl, bestByConf_mem _ (by simp), rfl, ?_⟩
      intro r hr
      exact bestByConf_le _ r hr
  · rw [merge_duplicates, List.length_map, length_sortStrings]

/-- C2 witness: the three-record group of the specification example is
merged into its confidence-90 representative with all three file names. -/
theorem merge_duplicates_groups_spec_witness :
    "111-1111111-1111111" ∈ rowsExample.map rowKey
    ∧ consolidate (groupOf rowsExample "111-1111111-1111111") ∈
        merge_duplicates rowsExample
    ∧ (consolidate (groupOf rowsExample "111-1111111-1111111")).isDuplicate = true
    ∧ (consolidate (groupOf rowsExample "111-1111111-1111111")).tessConf =
        (bestByConf (groupOf rowsExample "111-1111111-1111111")).tessConf := by
  have h := merge_duplicates_groups_spec rowsExample "111-1111111-1111111"
    (by decide)
  have h4 := h.2.2.2.1 (by decide)
  exact ⟨by decide, h.1, h4.1, h4.2.2.2.1⟩

/-! ## Claims C3 and C10 — crop-search loop lemmas -/

theorem bestLoop_score_le (image : Img) (ocr : Img → OcrOut) (threshold : ℚ) :
    ∀ (cs : List Crop) (st : BestSt),
      st.score ≤ (bestLoop image ocr threshold st cs).score := by
  intro cs
  induction cs with
  | nil => intro st; rw [bestLoop]
  | cons crop rest ih =>
    intro st
    rw [bestLoop]
    rcases hap : apply_crop image crop with _ | cropped
    · exact ih st
    · simp only
      by_cases hsc : st.score <
          cropScore (ocr cropped).text (ocr cropped).conf
      · rw [if_pos hsc]
        by_cases hb : (threshold ≤ (ocr cropped).conf &&
            has_order_id (ocr cropped).text) = true
        · rw [if_pos hb]
          exact le_of_lt hsc
        · rw [if_neg hb]
          exact le_trans (le_of_lt hsc) (ih _)
      · rw [if_neg hsc]
        exact ih st

theorem bestLoop_dichotomy (image : Img) (ocr : Img → OcrOut) (threshold : ℚ) :
    ∀ (cs : List Crop) (st : BestSt),
      bestLoop image ocr threshold st cs = st
      ∨ ((bestLoop image ocr threshold st cs).params ≠ none
          ∧ st.score < (bestLoop image ocr threshold st cs).score) := by
  intro cs
  induction cs with
  | nil => intro st; left; rw [bestLoop]
  | cons crop rest ih =>
    intro st
    rw [bestLoop]
    rcases hap : apply_crop image crop with _ | cropped
    · exact ih st
    · simp only
      by_cases hsc : st.score <
          cropScore (ocr cropped).text (ocr cropped).conf
      · rw [if_pos hsc]
        by_cases hb : (threshold ≤ (ocr cropped).conf &&
            has_order_id (ocr cropped).text) = true
        · rw [if_pos hb]
          right
          exact ⟨Option.some_ne_none _, hsc⟩
        · rw [if_neg hb]
          right
          rcases ih ⟨(ocr cropped).text, (ocr cropped).conf, cropped,
              (ocr cropped).processed, some crop,
              cropScore (ocr cropped).text (ocr cropped).conf⟩ with heq | ⟨hp, hs⟩
          · rw [heq]
            exact ⟨Option.some_ne_none _, hsc⟩
          · exact ⟨hp, lt_trans hsc hs⟩
      · rw [if_neg hsc]
        exact ih st

theorem bestLoop_score_eq (image : Img) (ocr : Img → OcrOut) (threshold : ℚ) :
    ∀ (cs : List Crop) (st : BestSt),
      st.score = cropScore st.text st.conf →
      (bestLoop image ocr threshold st cs).score =
        cropScore (bestLoop image ocr threshold st cs).text
          (bestLoop image ocr threshold st cs).conf := by
  intro cs
  induction cs with
  | nil => intro st h; rw [bestLoop]; exact h
  | cons crop rest ih =>
    intro st h
    rw [bestLoop]
    rcases hap : apply_crop image crop with _ | cropped
    · exact ih st h
    · simp only
      by_cases hsc : st.score <
          cropScore (ocr cropped).text (ocr cropped).conf
      · rw [if_pos hsc]
        by_cases hb : (threshold ≤ (ocr cropped).conf &&
            has_order_id (ocr cropped).text) = true
        · rw [if_pos hb]
        · rw [if_neg hb]
          exact ih _ rfl
      · rw [if_neg hsc]
        exact ih st h

theorem bestLoop_params_none_iff (image : Img) (ocr : Img → OcrOut) (threshold : ℚ) :
    ∀ (cs : List Crop) (st : BestSt), st.params = none →
      ((bestLoop image ocr threshold st cs).params = none ↔
        ∀ crop ∈ cs, ∀ cropped, apply_crop image crop = some cropped →
          cropScore (ocr cropped).text (ocr cropped).conf ≤ st.score) := by
  intro cs
  induction cs with
  | nil =>
    intro st h
    rw [bestLoop]
    simp [h]
  | cons crop rest ih =>
    intro st h
    rw [bestLoop]
    rcases hap : apply_crop image crop with _ | cropped
    · rw [ih st h]
      constructor
      · intro hall c hc cr hcr
        rcases List.mem_cons.mp hc with h' | h'
        · rw [h'] at hcr
          rw [hcr] at hap
          exact absurd hap (by simp)
        · exact hall c h' cr hcr
      · intro hall c hc cr hcr
        exact hall c (List.mem_cons_of_mem _ hc) cr hcr
    · simp only
      by_cases hsc : st.score <
          cropScore (ocr cropped).text (ocr cropped).conf
      · have hfalse : ¬ (∀ c ∈ crop :: rest, ∀ cr,
            apply_crop image c = some cr →
            cropScore (ocr cr).text (ocr cr).conf ≤ st.score) := by
          intro hall
          exact absurd (hall crop (List.mem_cons_self _ _) cropped hap)
            (not_le.mpr hsc)
        rw [if_pos hsc]
        by_cases hb : (threshold ≤ (ocr cropped).conf &&
            has_order_id (ocr cropped).text) = true
        · rw [if_pos hb]
          simp only [Option.some_ne_none]
          exact iff_of_false (by simp) hfalse
        · rw [if_neg hb]
          refine iff_of_false ?_ hfalse
          rcases bestLoop_dichotomy image ocr threshold rest
              ⟨(ocr cropped).text, (ocr cropped).conf, cropped,
               (ocr cropped).processed, some crop,
               cropScore (ocr cropped).text (ocr cropped).conf⟩ with heq | ⟨hp, _⟩
          · rw [heq]; simp
          · exact hp
      · rw [if_neg hsc]
        rw [ih st h]
        constructor
        · intro hall c hc cr hcr
          rcases List.mem_cons.mp hc with h' | h'
          · rw [h'] at hcr
            rw [hcr] at hap
            have : cr = cropped := Option.some_inj.mp hap
            rw [this]
            exact le_of_not_lt hsc
          · exact hall c h' cr hcr
        · intro hall c hc cr hcr
          exact hall c (List.mem_cons_of_mem _ hc) cr hcr

/-- C10: the result of `find_best_crop` never scores below the full-image
attempt; when `strategyUsed` is `none` the returned colour image, text,
confidence and processed image are exactly those of the full-image
attempt; and (outside the full-image early exit, which skips the crop loop
entirely) `strategyUsed` is `none` exactly when no applied crop strategy
scored strictly above the running best, which until a first replacement is
the full-image score. -/
theorem find_best_crop_result_spec (image : Img) (ocr : Img → OcrOut)
    (strategies : List Crop) (th : ℚ) :
    cropScore (ocr image).text (ocr image).conf ≤
      cropScore (find_best_crop image ocr strategies th).text
        (find_best_crop image ocr strategies th).conf
    ∧ ((find_best_crop image ocr strategies th).params = none →
        find_best_crop image ocr strategies th =
          ⟨image, (ocr image).text, (ocr image).conf, (ocr image).processed, none⟩)
    ∧ (¬ (th ≤ (ocr image).conf ∧ has_order_id (ocr image).text = true) →
        ((find_best_crop image ocr strategies th).params = none ↔
          ∀ crop ∈ strategies, ∀ cropped, apply_crop image crop = some cropped →
            cropScore (ocr cropped).text (ocr cropped).conf ≤
              cropScore (ocr image).text (ocr image).conf)) := by
  by_cases hexit : (th ≤ (ocr image).conf && has_order_id (ocr image).text) = true
  · have heq : find_best_crop image ocr strategies th =
        ⟨image, (ocr image).text, (ocr image).conf, (ocr image).processed, none⟩ := by
      rw [find_best_crop, if_pos hexit]
    refine ⟨?_, fun _ => heq, ?_⟩
    · rw [heq]
    · intro hne
      rcases Bool.and_eq_true_iff.mp hexit with ⟨h1, h2⟩
      exact absurd ⟨of_decide_eq_true h1, h2⟩ hne
  · have heq : find_best_crop image ocr strategies th =
        ⟨(bestLoop image ocr th
            ⟨(ocr image).text, (ocr image).conf, image, (ocr image).processed,
             none, cropScore (ocr image).text (ocr image).conf⟩ strategies).color,
         (bestLoop image ocr th
            ⟨(ocr image).text, (ocr image).conf, image, (ocr image).processed,
             none, cropScore (ocr image).text (ocr image).conf⟩ strategies).text,
         (bestLoop image ocr th
            ⟨(ocr image).text, (ocr image).conf, image, (ocr image).processed,
             none, cropScore (ocr image).text (ocr image).conf⟩ strategies).conf,
         (bestLoop image ocr th
            ⟨(ocr image).text, (ocr image).conf, image, (ocr image).processed,
             none, cropScore (ocr image).text (ocr image).conf⟩ strategies).processed,
         (bestLoop image ocr th
            ⟨(ocr image).text, (ocr image).conf, image, (ocr image).processed,
             none, cropScore (ocr image).text (ocr image).conf⟩ strategies).params⟩ := by
      rw [find_best_crop, if_neg hexit]
    have hscore := bestLoop_score_le image ocr th strategies
      ⟨(ocr image).text, (ocr image).conf, image, (ocr image).processed,
       none, cropScore (ocr image).text (ocr image).conf⟩
    have hinv := bestLoop_score_eq image ocr th strategies
      ⟨(ocr image).text, (ocr image).conf, image, (ocr image).processed,
       none, cropScore (ocr image).text (ocr image).conf⟩ rfl
    refine ⟨?_, ?_, ?_⟩
    · rw [heq]
      exact le_of_le_of_eq hscore hinv
    · intro hp
      rw [heq] at hp ⊢
      rcases bestLoop_dichotomy image ocr th strategies
        ⟨(ocr image).text, (ocr image).conf, image, (ocr image).processed,
         none, cropScore (ocr image).text (ocr image).conf⟩ with hB | ⟨hda, _⟩
      · rw [hB]
      · exact absurd hp hda
    · intro _
      rw [heq]
      exact bestLoop_params_none_iff image ocr th strategies
        ⟨(ocr image).text, (ocr image).conf, image, (ocr image).processed,
         none, cropScore (ocr image).text (ocr image).conf⟩ rfl

theorem apply_crop_cropRight : apply_crop imgFull cropRight = some ⟨1000, 500, 0, 0⟩ := by
  have h1 : ((1000:ℕ):ℚ) * (1/2 : ℚ) = 500 := by norm_num
  have h2 : ((1000:ℕ):ℚ) * (0:ℚ) = 0 := by norm_num
  simp only [apply_crop, imgFull, cropRight, h1, h2]
  norm_num [pyInt]
  exact ⟨rfl, rfl⟩

/-- C3 counterexample: on the full image the score (confidence 30 plus the
+100 id bonus) meets the threshold 70 and an order id was found, yet
`find_best_crop` does not return immediately — the source's early exit
tests the bare confidence, so the crop strategy is still attempted and
wins. -/
theorem find_best_crop_score_exit_refuted :
    default_confidence_threshold ≤
        cropScore (ocrLowFull imgFull).text (ocrLowFull imgFull).conf
    ∧ has_order_id (ocrLowFull imgFull).text = true
    ∧ find_best_crop imgFull ocrLowFull [cropRight] default_confidence_threshold =
        ⟨⟨1000, 500, 0, 0⟩, "zoom 123-4567890-1234567", 50, ⟨1000, 500, 0, 0⟩,
         some cropRight⟩
    ∧ (find_best_crop imgFull ocrLowFull [cropRight]
        default_confidence_threshold).params ≠ none := by
  have hid1 : has_order_id "order 123-4567890-1234567" = true := by decide
  have hid2 : has_order_id "zoom 123-4567890-1234567" = true := by decide
  have ho1 : ocrLowFull imgFull = ⟨"order 123-4567890-1234567", 30, imgFull⟩ := rfl
  have ho2 : ocrLowFull ⟨1000, 500, 0, 0⟩ =
      ⟨"zoom 123-4567890-1234567", 50, ⟨1000, 500, 0, 0⟩⟩ := rfl
  have hs1 : cropScore "order 123-4567890-1234567" 30 = 130 := by
    norm_num [cropScore, hid1]
  have heval : find_best_crop imgFull ocrLowFull [cropRight]
      default_confidence_threshold =
      ⟨⟨1000, 500, 0, 0⟩, "zoom 123-4567890-1234567", 50, ⟨1000, 500, 0, 0⟩,
       some cropRight⟩ := by
    rw [show default_confidence_threshold = 70 from rfl, find_best_crop, ho1]
    norm_num [bestLoop, apply_crop_cropRight, ho2, cropScore, hid1, hid2]
  refine ⟨?_, hid1, heval, ?_⟩
  · show default_confidence_threshold ≤ cropScore "order 123-4567890-1234567" 30
    rw [hs1, show default_confidence_threshold = 70 from rfl]
    norm_num
  · rw [heval]
    simp

/-- C3 (amended): the early exit of `find_best_crop` fires on the bare
*confidence* (not the score) meeting the threshold together with an order
id found: on the full image it then returns the full attempt with no
strategy used; inside the crop loop the exit additionally requires that
the crop strictly improved the running best score, and the loop then stops
with that crop as the final result, attempting no further strategy. -/
theorem find_best_crop_early_exit (image : Img) (ocr : Img → OcrOut)
    (strategies : List Crop) (th : ℚ) :
    (th ≤ (ocr image).conf → has_order_id (ocr image).text = true →
      find_best_crop image ocr strategies th =
        ⟨image, (ocr image).text, (ocr image).conf, (ocr image).processed, none⟩)
    ∧ (∀ (st : BestSt) (crop : Crop) (rest : List Crop) (cropped : Img),
        apply_crop image crop = some cropped →
        st.score < cropScore (ocr cropped).text (ocr cropped).conf →
        th ≤ (ocr cropped).conf →
        has_order_id (ocr cropped).text = true →
        bestLoop image ocr th st (crop :: rest) =
          ⟨(ocr cropped).text, (ocr cropped).conf, cropped,
           (ocr cropped).processed, some crop,
           cropScore (ocr cropped).text (ocr cropped).conf⟩) := by
  constructor
  · intro h1 h2
    rw [find_best_crop, if_pos (by simp [h1, h2])]
  · intro st crop rest cropped hap hsc h1 h2
    rw [bestLoop, hap]
    simp only
    rw [if_pos hsc, if_pos (by simp [h1, h2])]

/-- C3 witness: with full-image confidence 80 against threshold 70 and an
id found, the full image is returned immediately with no strategy used. -/
theorem find_best_crop_early_exit_witness :
    (70:ℚ) ≤ (ocrHighFull imgFull).conf
    ∧ has_order_id (ocrHighFull imgFull).text = true
    ∧ find_best_crop imgFull ocrHighFull [cropRight] 70 =
        ⟨imgFull, (ocrHighFull imgFull).text, (ocrHighFull imgFull).conf,
         (ocrHighFull imgFull).processed, none⟩ :=
  ⟨by norm_num [ocrHighFull], by decide,
   (find_best_crop_early_exit imgFull ocrHighFull [cropRight] 70).1
     (by norm_num [ocrHighFull]) (by decide)⟩

/-- C10 witness: with no order id found and every crop scoring below the
full image, no strategy is used. -/
theorem find_best_crop_result_spec_witness :
    ¬ ((70:ℚ) ≤ (ocrNoId imgFull).conf ∧ has_order_id (ocrNoId imgFull).text = true)
    ∧ (find_best_crop imgFull ocrNoId [cropRight] 70).params = none := by
  have hne : ¬ ((70:ℚ) ≤ (ocrNoId imgFull).conf
      ∧ has_order_id (ocrNoId imgFull).text = true) := by
    rintro ⟨h, -⟩
    have h40 : ¬ ((70:ℚ) ≤ 40) := by norm_num
    exact h40 h
  refine ⟨hne, ?_⟩
  refine ((find_best_crop_result_spec imgFull ocrNoId [cropRight] 70).2.2 hne).mpr ?_
  intro crop hc cropped hcr
  rw [List.mem_singleton] at hc
  rw [hc, apply_crop_cropRight] at hcr
  have hcc : cropped = ⟨1000, 500, 0, 0⟩ := (Option.some_inj.mp hcr).symm
  rw [hcc]
  have ho1 : ocrNoId imgFull = ⟨"just text", 40, imgFull⟩ := rfl
  have ho2 : ocrNoId ⟨1000, 500, 0, 0⟩ =
      ⟨"crop text", 20, ⟨1000, 500, 0, 0⟩⟩ := rfl
  have hid1 : has_order_id "just text" = false := by decide
  have hid2 : has_order_id "crop text" = false := by decide
  rw [ho1, ho2]
  norm_num [cropScore, hid1, hid2]

/-- C5 witness: the characterisation at a concrete text. -/
theorem extract_items_characterization_witness :
    extract_items itemsText =
      dedupFirst ((((linesOf itemsText).map cleanLine).filter
        keepItemLine).map String.mk) :=
  extract_items_characterization itemsText

/-- C8 witness: the end-to-end escalation example — hybrid mode with
confidence 80 against threshold 70, order ids and items present, gives
false; the constant modes behave as specified. -/
theorem should_use_ai_modes_witness :
    should_use_ai "always" 70 dataFull 80 = true
    ∧ should_use_ai "never" 70 dataFull 80 = false
    ∧ should_use_ai "hybrid" 70 dataFull 80 = false := by
  have h := should_use_ai_modes 70 dataFull 80
  refine ⟨h.2.1, h.1, ?_⟩
  cases hb : should_use_ai "hybrid" 70 dataFull 80
  · rfl
  · exfalso
    rcases h.2.2.1.mp hb with hlt | hempty | hempty
    · exact absurd hlt (by norm_num)
    · exact absurd hempty (by decide)
    · exact absurd hempty (by decide)

/-- C9 witness: the eight keys at a concrete text. -/
theorem extract_all_eight_keys_witness :
    (extract_all itemsText).map Prod.fst =
      ["order_ids", "prices", "dates", "totals", "quantities", "sellers",
       "tracking_numbers", "items"] :=
  (extract_all_eight_keys itemsText []).1
